import Mathlib

/-!
Shallow embedding of the data-derivation pipeline of the Codeforces profile
analyzer (src/script.js): submission normalization, statistics aggregation,
history filtering, the retry client, and the comparison correlator, together
with proofs of the specified properties.
-/

/-- A problem reference as carried on a submission.  The JS code reads
`sub.problem.contestId`, `sub.problem.index`, `sub.problem.rating` and
`sub.problem.tags`.  `rating` is optional; the JS code tests it for
truthiness (`if (sub.problem.rating)`), so a present value 0 behaves like an
absent rating. -/
structure Problem where
  contestId : Nat
  index : String
  rating : Option Nat
  tags : List String
deriving DecidableEq

/-- A submission: a problem reference plus a verdict string; only the
verdict "OK" counts as accepted. -/
structure Submission where
  problem : Problem
  verdict : String
deriving DecidableEq

/-- One rating-history entry, as returned by the user.rating query. -/
structure RatingChange where
  contestId : Nat
  contestName : String
  rank : Int
  oldRating : Int
  newRating : Int
  ratingUpdateTimeSeconds : Int
deriving DecidableEq

/-- User profile snapshot, as returned by the user.info query. -/
structure UserProfile where
  handle : String
  rank : Option String
  rating : Option Int
  maxRating : Option Int
deriving DecidableEq

/-- The problem key built at line 112 of src/script.js by the template
literal, i.e. the decimal contest id, a dash, and the in-contest index. -/
def problemKey (p : Problem) : String :=
  Nat.repr p.contestId ++ "-" ++ p.index

/-- Insertion-order deduplication by problem key: models the JS Map loop of
`processSubmissions` (lines 109-118).  `seen` is the key set of the Map; a
submission is kept exactly when its key has not been seen before, and a JS
Map iterates its values in insertion order, so the kept submissions come out
in first-occurrence order. -/
def dedupeByKey : List Submission → List String → List Submission
  | [], _ => []
  | s :: rest, seen =>
    if problemKey s.problem ∈ seen then dedupeByKey rest seen
    else s :: dedupeByKey rest (problemKey s.problem :: seen)

/-- Models `processSubmissions` (line 107): keep the submissions with
verdict "OK", then deduplicate them by problem key, first occurrence wins. -/
def processSubmissions (submissions : List Submission) : List Submission :=
  dedupeByKey (submissions.filter (fun sub => sub.verdict == "OK")) []

/-- Numeric value of a decimal digit character. -/
def digitVal (c : Char) : Nat := c.toNat - 48

/-- Decode a big-endian list of decimal digit characters. -/
def decodeDigits (l : List Char) : Nat :=
  l.foldl (fun a c => a * 10 + digitVal c) 0

/-- The three histograms built by `calculateProblemStats` (line 121).  A JS
object used as a counter table is modelled as a total function that is 0
outside the inserted keys. -/
structure ProblemStats where
  levels : String → Nat
  ratings : Nat → Nat
  tags : String → Nat

/-- Increment the counter of key `k`, as in `obj[k] = (obj[k] || 0) + 1`. -/
def bump (f : String → Nat) (k : String) : String → Nat :=
  fun t => if t = k then f t + 1 else f t

/-- Increment the counter of numeric key `k`. -/
def bumpNat (f : Nat → Nat) (k : Nat) : Nat → Nat :=
  fun t => if t = k then f t + 1 else f t

/-- One iteration of the forEach body of `calculateProblemStats`
(lines 126-138): count the level; count the rating bucket
`Math.floor(rating / 100) * 100` when the rating is truthy (present and
nonzero); count every tag occurrence. -/
def addSub (st : ProblemStats) (sub : Submission) : ProblemStats :=
  { levels := bump st.levels sub.problem.index
    ratings :=
      match sub.problem.rating with
      | some r => if r ≠ 0 then bumpNat st.ratings (r / 100 * 100) else st.ratings
      | none => st.ratings
    tags := sub.problem.tags.foldl bump st.tags }

/-- The empty counter tables. -/
def emptyStats : ProblemStats := ⟨fun _ => 0, fun _ => 0, fun _ => 0⟩

/-- Models `calculateProblemStats` (line 121). -/
def calculateProblemStats (acceptedSubmissions : List Submission) : ProblemStats :=
  acceptedSubmissions.foldl addSub emptyStats

/-- Bool test: the submission carries a truthy rating whose bucket is `b`;
this is the condition under which the code counts it at bucket `b`. -/
def ratedInBucket (sub : Submission) (b : Nat) : Bool :=
  match sub.problem.rating with
  | some r => r != 0 && (r / 100 * 100 == b)
  | none => false

/-- Bool test following the words of the specification for the rating
histogram: the submission carries a rating whose bucket is `b`, with no
caveat about the value 0.  Kept separate from `ratedInBucket` so the two can
be compared. -/
def specRatedInBucket (sub : Submission) (b : Nat) : Bool :=
  match sub.problem.rating with
  | some r => r / 100 * 100 == b
  | none => false

/-- A displayed contest statistic: either a number or the dash sentinel
string placed by the code when the rating history is empty. -/
inductive StatVal where
  | num : Int → StatVal
  | dash : StatVal
deriving DecidableEq

/-- Result of `calculateContestStats` (line 143). -/
structure ContestStats where
  attended : Nat
  bestRank : StatVal
  avgRating : StatVal
deriving DecidableEq

/-- Models `calculateContestStats` (line 143): attended is the length,
bestRank the minimum rank (Math.min over the mapped ranks), avgRating is
`Math.round(total / attended)`.  For an integer total `t` and a positive
count `n`, `Math.round(t / n)` is the floor of `t / n + 1 / 2`, i.e.
`(2 * t + n).ediv (2 * n)` (Math.round rounds ties toward positive
infinity, and ediv is floor division for a positive divisor). -/
def calculateContestStats (ratingHistory : List RatingChange) : ContestStats :=
  match ratingHistory with
  | [] => { attended := 0, bestRank := .dash, avgRating := .dash }
  | c :: rest =>
    let n : Nat := (c :: rest).length
    let total : Int := (c :: rest).foldl (fun s x => s + x.newRating) 0
    { attended := n
      bestRank := .num (rest.foldl (fun m x => min m x.rank) c.rank)
      avgRating := .num (Int.ediv (2 * total + (n : Int)) (2 * (n : Int))) }

/-- Per-character lowercase map: models the JS `toLowerCase` call (adequate
for the ASCII contest names and patterns involved). -/
def jsToLower (s : String) : String := ⟨s.data.map Char.toLower⟩

/-- Does the second list start with the first one? -/
def leadEq : List Char → List Char → Bool
  | [], _ => true
  | _ :: _, [] => false
  | a :: as, b :: bs => a == b && leadEq as bs

/-- Substring occurrence test on character lists. -/
def occursIn (pat : List Char) : List Char → Bool
  | [] => leadEq pat []
  | b :: bs => leadEq pat (b :: bs) || occursIn pat bs

/-- Models the JS `s.includes(pat)` substring test. -/
def strIncludes (s pat : String) : Bool := occursIn pat.data s.data

/-- Models `filterRatingHistoryByTime` (line 155): identity for an empty
history or the label "All"; the labels "1Y" and "6M" keep the entries whose
update timestamp is at least `now` minus the window (365 days, resp. 6
approximate 30-day months); any other label falls through to identity.
`now` stands for `Date.now() / 1000`. -/
def filterRatingHistoryByTime (now : Int) (ratingHistory : List RatingChange)
    (timeFrame : String) : List RatingChange :=
  if ratingHistory = [] ∨ timeFrame = "All" then ratingHistory
  else if timeFrame = "1Y" then
    ratingHistory.filter (fun c => decide (now - 365 * 24 * 60 * 60 ≤ c.ratingUpdateTimeSeconds))
  else if timeFrame = "6M" then
    ratingHistory.filter (fun c => decide (now - 6 * 30 * 24 * 60 * 60 ≤ c.ratingUpdateTimeSeconds))
  else ratingHistory

/-- The switch of `filterContestsByType` (lines 181-192), applied to one
entry: substring tests against the lowercased contest name; any label other
than the four recognized ones keeps the entry. -/
def contestTypeMatch (contestType : String) (c : RatingChange) : Bool :=
  let contestName := jsToLower c.contestName
  if contestType = "Div. 1" then
    strIncludes contestName "div. 1" && !(strIncludes contestName "div. 2")
  else if contestType = "Div. 2" then strIncludes contestName "div. 2"
  else if contestType = "Div. 3" then strIncludes contestName "div. 3"
  else if contestType = "Educational" then strIncludes contestName "educational"
  else true

/-- Models `filterContestsByType` (line 175): identity for an empty history
or the label "All", otherwise filter by `contestTypeMatch`. -/
def filterContestsByType (ratingHistory : List RatingChange)
    (contestType : String) : List RatingChange :=
  if ratingHistory = [] ∨ contestType = "All" then ratingHistory
  else ratingHistory.filter (contestTypeMatch contestType)

/-- Outcome of `fetchWithRetry` as observed by a caller: a returned payload,
a thrown error message, or the JS `undefined` that the function returns when
the loop body never runs. -/
inductive RetryOutcome (α : Type) where
  | success : α → RetryOutcome α
  | thrown : String → RetryOutcome α
  | undef : RetryOutcome α
deriving DecidableEq

/-- The loop of `fetchWithRetry` (lines 49-64).  `oracle i` abstracts the
whole body of attempt `i` (fetch, HTTP status check, JSON decode, envelope
status check): `.ok v` means the attempt returns payload `v`, `.error e`
means the attempt throws the message `e`.  `i` is the JS loop counter and
`fuel` the number of remaining iterations (`retries.toNat - i`), so the
loop guard `i < retries` fails exactly when `fuel` is 0, and falling off
the loop returns `undefined`. -/
def fetchLoop (oracle : Nat → Except String α) (retries : Int) (i : Nat) :
    Nat → RetryOutcome α
  | 0 => .undef
  | fuel + 1 =>
    match oracle i with
    | .ok v => .success v
    | .error e =>
      if (i : Int) = retries - 1 then .thrown e
      else fetchLoop oracle retries (i + 1) fuel

/-- Models `fetchWithRetry` (line 48): run the attempt loop from `i = 0`
with `retries` iterations available (none when `retries` is not positive). -/
def fetchWithRetry (oracle : Nat → Except String α) (retries : Int) : RetryOutcome α :=
  fetchLoop oracle retries 0 retries.toNat

/-- The data assembled by a successful single-user analysis. -/
structure AnalysisView where
  user : UserProfile
  acceptedSubmissions : List Submission
  problemStats : ProblemStats
  contestStats : ContestStats
  ratingHistory : List RatingChange

/-- Models the data flow of `analyzeUser` (lines 637-650): the three query
outcomes settle jointly; the rating query carries `.catch(() => [])`, so its
failure degrades to the empty history; a profile or submission failure makes
the whole Promise.all reject and the catch block shows one error.  (In JS
the earliest rejection wins; this model reports the profile error first -
the claims below depend only on success versus failure.) -/
def analyzeUser (user : Except String UserProfile)
    (rating : Except String (List RatingChange))
    (subs : Except String (List Submission)) : Except String AnalysisView :=
  match user, subs with
  | .error e, _ => .error e
  | .ok _, .error e => .error e
  | .ok u, .ok s =>
    let ratingHistory := match rating with | .ok r => r | .error _ => []
    let accepted := processSubmissions s
    .ok { user := u, acceptedSubmissions := accepted,
          problemStats := calculateProblemStats accepted,
          contestStats := calculateContestStats ratingHistory,
          ratingHistory := ratingHistory }

/-- Shared solved-problem count of `updateComparisonUI` (lines 750-752):
the two problem-key sets are intersected and the intersection counted. -/
def sharedProblems (user1Accepted user2Accepted : List Submission) : Nat :=
  ((user1Accepted.map (fun s => problemKey s.problem)).toFinset ∩
    (user2Accepted.map (fun s => problemKey s.problem)).toFinset).card

/-- Shared contest count of `updateComparisonUI` (lines 754-756). -/
def sharedContests (user1Rating user2Rating : List RatingChange) : Nat :=
  ((user1Rating.map (fun c => c.contestId)).toFinset ∩
    (user2Rating.map (fun c => c.contestId)).toFinset).card

/-- The data assembled by a successful two-user comparison. -/
structure ComparisonView where
  user1 : UserProfile
  user2 : UserProfile
  user1Accepted : List Submission
  user2Accepted : List Submission
  user1History : List RatingChange
  user2History : List RatingChange
  commonProblems : Nat
  commonContests : Nat

/-- Models the data flow of `compareUsers` (lines 686-717): each user has a
profile, rating and submission query; both rating queries carry
`.catch(() => [])`; any profile or submission failure rejects the joint
Promise.all.  (As for `analyzeUser`, the model fixes an error-reporting
order; the claims depend only on success versus failure.) -/
def compareUsers (user1 : Except String UserProfile)
    (rating1 : Except String (List RatingChange))
    (subs1 : Except String (List Submission))
    (user2 : Except String UserProfile)
    (rating2 : Except String (List RatingChange))
    (subs2 : Except String (List Submission)) : Except String ComparisonView :=
  match user1, subs1, user2, subs2 with
  | .error e, _, _, _ => .error e
  | _, .error e, _, _ => .error e
  | _, _, .error e, _ => .error e
  | _, _, _, .error e => .error e
  | .ok u1, .ok s1, .ok u2, .ok s2 =>
    let h1 := match rating1 with | .ok r => r | .error _ => []
    let h2 := match rating2 with | .ok r => r | .error _ => []
    let a1 := processSubmissions s1
    let a2 := processSubmissions s2
    .ok { user1 := u1, user2 := u2, user1Accepted := a1, user2Accepted := a2,
          user1History := h1, user2History := h2,
          commonProblems := sharedProblems a1 a2,
          commonContests := sharedContests h1 h2 }

/-- Fixture: problem 1A, rated 800, one tag. -/
def probA1 : Problem := ⟨1, "A", some 800, ["dp"]⟩

/-- Fixture: problem 1B, unrated. -/
def probB1 : Problem := ⟨1, "B", none, ["math"]⟩

/-- Fixture: problem 2A, rated 1250, two tags. -/
def probA2 : Problem := ⟨2, "A", some 1250, ["dp", "greedy"]⟩

/-- Fixture: a problem whose rating field is present but 0. -/
def probZero : Problem := ⟨3, "C", some 0, []⟩

/-- Fixture: accepted submission to 1A. -/
def subOkA1 : Submission := ⟨probA1, "OK"⟩

/-- Fixture: rejected submission to 1B. -/
def subWaB1 : Submission := ⟨probB1, "WRONG_ANSWER"⟩

/-- Fixture: accepted submission to 2A. -/
def subOkA2 : Submission := ⟨probA2, "OK"⟩

/-- Fixture: accepted submission carrying the rating value 0. -/
def subZero : Submission := ⟨probZero, "OK"⟩

/-- Fixture: a raw submission sequence with a duplicated accepted problem
and one rejected submission. -/
def demoSubs : List Submission := [subOkA1, subOkA1, subWaB1, subOkA2]

/-- Fixture: one rating change of a Div. 2 round. -/
def demoChange : RatingChange := ⟨100, "Codeforces Round 900 (Div. 2)", 50, 1400, 1500, 1700000000⟩

/-- Fixture: one rating change of a combined-division educational round. -/
def demoChange2 : RatingChange :=
  ⟨101, "Educational Codeforces Round 90 (Div. 1 + Div. 2)", 21, 1500, 1601, 1710000000⟩

/-- Fixture: one rating change of a pure Div. 1 round. -/
def demoChange3 : RatingChange :=
  ⟨102, "Codeforces Round 333 (Div. 1)", 10, 1800, 1850, 1720000000⟩

/-- Fixture: a three-entry rating history. -/
def demoHistory : List RatingChange := [demoChange, demoChange2, demoChange3]

/-- Fixture: an attempt oracle that fails twice and succeeds on attempt 2. -/
def demoOracle : Nat → Except String Nat :=
  fun i => if i = 2 then .ok 7 else .error ("boom " ++ Nat.repr i)

/-- Fixture: an attempt oracle that always fails. -/
def demoOracleFail : Nat → Except String Nat :=
  fun i => .error ("down " ++ Nat.repr i)

/-- `Nat.toDigitsCore` only pushes digits in front of the accumulator. -/
theorem toDigitsCore_append (fuel : Nat) : ∀ (n : Nat) (ds : List Char),
    Nat.toDigitsCore 10 fuel n ds = Nat.toDigitsCore 10 fuel n [] ++ ds := by
  induction fuel with
  | zero => intro n ds; simp [Nat.toDigitsCore]
  | succ fuel ih =>
    intro n ds
    simp only [Nat.toDigitsCore]
    by_cases h : n / 10 = 0
    · simp [h]
    · simp only [h, if_false]
      rw [ih (n / 10) (Nat.digitChar (n % 10) :: ds), ih (n / 10) [Nat.digitChar (n % 10)]]
      simp

/-- Decimal digit characters decode back to their value. -/
theorem digitVal_digitChar (m : Nat) (h : m < 10) : digitVal (Nat.digitChar m) = m := by
  interval_cases m <;> decide

/-- Decimal digit characters are not the dash. -/
theorem digitChar_ne_dash (m : Nat) (h : m < 10) : Nat.digitChar m ≠ '-' := by
  interval_cases m <;> decide

/-- Decoding after appending one digit. -/
theorem decodeDigits_append_singleton (l : List Char) (c : Char) :
    decodeDigits (l ++ [c]) = decodeDigits l * 10 + digitVal c := by
  simp [decodeDigits, List.foldl_append]

/-- The digit list produced by `Nat.toDigitsCore` decodes to the number. -/
theorem decodeDigits_toDigitsCore (fuel : Nat) : ∀ n : Nat, n < fuel →
    decodeDigits (Nat.toDigitsCore 10 fuel n []) = n := by
  induction fuel with
  | zero => intro n h; omega
  | succ fuel ih =>
    intro n h
    simp only [Nat.toDigitsCore]
    by_cases h0 : n / 10 = 0
    · have hlt : n < 10 := by omega
      have hm : n % 10 = n := Nat.mod_eq_of_lt hlt
      rw [if_pos h0, hm]
      simpa [decodeDigits] using digitVal_digitChar n hlt
    · rw [if_neg h0, toDigitsCore_append, decodeDigits_append_singleton]
      have h1 : n / 10 < fuel := by omega
      rw [ih (n / 10) h1, digitVal_digitChar (n % 10) (Nat.mod_lt n (by norm_num))]
      omega

/-- The decimal representation of a natural number is injective. -/
theorem natRepr_injective (a b : Nat) (h : Nat.repr a = Nat.repr b) : a = b := by
  have hd : Nat.toDigitsCore 10 (a + 1) a [] = Nat.toDigitsCore 10 (b + 1) b [] := by
    have hdat := congrArg String.data h
    simpa [Nat.repr, Nat.toDigits, List.asString] using hdat
  have ha := decodeDigits_toDigitsCore (a + 1) a (Nat.lt_succ_self a)
  have hb := decodeDigits_toDigitsCore (b + 1) b (Nat.lt_succ_self b)
  rw [← ha, ← hb, hd]

/-- No dash appears among the digits produced by `Nat.toDigitsCore`. -/
theorem toDigitsCore_no_dash (fuel : Nat) : ∀ (n : Nat) (ds : List Char),
    (∀ c ∈ ds, c ≠ '-') → ∀ c ∈ Nat.toDigitsCore 10 fuel n ds, c ≠ '-' := by
  induction fuel with
  | zero => intro n ds hds; simpa [Nat.toDigitsCore] using hds
  | succ fuel ih =>
    intro n ds hds c hc
    simp only [Nat.toDigitsCore] at hc
    have hdigit : Nat.digitChar (n % 10) ≠ '-' :=
      digitChar_ne_dash (n % 10) (Nat.mod_lt n (by norm_num))
    by_cases h0 : n / 10 = 0
    · rw [if_pos h0] at hc
      rcases List.mem_cons.mp hc with h | h
      · rw [h]; exact hdigit
      · exact hds c h
    · rw [if_neg h0] at hc
      refine ih (n / 10) (Nat.digitChar (n % 10) :: ds) ?_ c hc
      intro x hx
      rcases List.mem_cons.mp hx with h | h
      · rw [h]; exact hdigit
      · exact hds x h

/-- No dash appears in the decimal representation of a natural number. -/
theorem natRepr_no_dash (n : Nat) : ∀ c ∈ (Nat.repr n).data, c ≠ '-' := by
  intro c hc
  have hmem : c ∈ Nat.toDigitsCore 10 (n + 1) n [] := by
    simpa [Nat.repr, Nat.toDigits, List.asString] using hc
  exact toDigitsCore_no_dash (n + 1) n [] (by simp) c hmem

/-- Splitting two equal lists at the first dash. -/
theorem append_dash_inj : ∀ (l1 l2 r1 r2 : List Char), '-' ∉ l1 → '-' ∉ l2 →
    l1 ++ '-' :: r1 = l2 ++ '-' :: r2 → l1 = l2 ∧ r1 = r2 := by
  intro l1
  induction l1 with
  | nil =>
    intro l2 r1 r2 h1 h2 heq
    cases l2 with
    | nil => simpa using heq
    | cons b bs =>
      simp only [List.nil_append, List.cons_append, List.cons.injEq] at heq
      exact absurd (heq.1 ▸ List.mem_cons_self b bs) h2
  | cons a as ih =>
    intro l2 r1 r2 h1 h2 heq
    cases l2 with
    | nil =>
      simp only [List.nil_append, List.cons_append, List.cons.injEq] at heq
      exact absurd (heq.1 ▸ List.mem_cons_self a as) h1
    | cons b bs =>
      simp only [List.cons_append, List.cons.injEq] at heq
      obtain ⟨hab, htail⟩ := heq
      have h1t : '-' ∉ as := fun hm => h1 (List.mem_cons_of_mem a hm)
      have h2t : '-' ∉ bs := fun hm => h2 (List.mem_cons_of_mem b hm)
      obtain ⟨hl, hr⟩ := ih bs r1 r2 h1t h2t htail
      exact ⟨by rw [hab, hl], hr⟩

/-- Two problems get the same string key exactly when they agree on contest
id and index: the decimal contest id contains no dash, so the key splits
unambiguously at its first dash. -/
theorem problemKey_eq_iff (p q : Problem) :
    problemKey p = problemKey q ↔ p.contestId = q.contestId ∧ p.index = q.index := by
  constructor
  · intro h
    have hdash : ("-" : String).data = ['-'] := rfl
    have hdata : (Nat.repr p.contestId).data ++ '-' :: p.index.data
        = (Nat.repr q.contestId).data ++ '-' :: q.index.data := by
      have hd := congrArg String.data h
      simpa [problemKey, String.data_append, hdash] using hd
    have hnd1 : '-' ∉ (Nat.repr p.contestId).data :=
      fun hm => natRepr_no_dash p.contestId '-' hm rfl
    have hnd2 : '-' ∉ (Nat.repr q.contestId).data :=
      fun hm => natRepr_no_dash q.contestId '-' hm rfl
    obtain ⟨hrepr, hidx⟩ := append_dash_inj _ _ _ _ hnd1 hnd2 hdata
    exact ⟨natRepr_injective _ _ (String.ext hrepr), String.ext hidx⟩
  · rintro ⟨h1, h2⟩
    simp [problemKey, h1, h2]

/-- The deduplicated list is a sublist of its input. -/
theorem dedupeByKey_sublist : ∀ (l : List Submission) (seen : List String),
    (dedupeByKey l seen).Sublist l := by
  intro l
  induction l with
  | nil => intro seen; simp [dedupeByKey]
  | cons x rest ih =>
    intro seen
    simp only [dedupeByKey]
    by_cases h : problemKey x.problem ∈ seen
    · rw [if_pos h]
      exact (ih seen).cons x
    · rw [if_neg h]
      exact (ih (problemKey x.problem :: seen)).cons₂ x

/-- Every retained submission has a key outside `seen` and is the first
entry of the input with its key. -/
theorem dedupeByKey_find : ∀ (l : List Submission) (seen : List String),
    ∀ s ∈ dedupeByKey l seen, problemKey s.problem ∉ seen ∧
      l.find? (fun t => problemKey t.problem == problemKey s.problem) = some s := by
  intro l
  induction l with
  | nil => intro seen s hs; simp [dedupeByKey] at hs
  | cons x rest ih =>
    intro seen s hs
    simp only [dedupeByKey] at hs
    by_cases h : problemKey x.problem ∈ seen
    · rw [if_pos h] at hs
      obtain ⟨hseen, hfind⟩ := ih seen s hs
      have hne : ¬(problemKey x.problem == problemKey s.problem) = true := by
        simp only [beq_iff_eq]
        intro hk
        exact hseen (hk ▸ h)
      rw [List.find?_cons_of_neg rest hne]
      exact ⟨hseen, hfind⟩
    · rw [if_neg h] at hs
      rcases List.mem_cons.mp hs with hx | hx
      · subst hx
        refine ⟨h, ?_⟩
        exact List.find?_cons_of_pos rest (by simp)
      · obtain ⟨hseen, hfind⟩ := ih (problemKey x.problem :: seen) s hx
        have hxk : problemKey s.problem ≠ problemKey x.problem :=
          fun hk => hseen (by rw [hk]; exact List.mem_cons_self _ _)
        have hne : ¬(problemKey x.problem == problemKey s.problem) = true := by
          simp only [beq_iff_eq]
          exact fun hk => hxk hk.symm
        rw [List.find?_cons_of_neg rest hne]
        exact ⟨fun hm => hseen (List.mem_cons_of_mem _ hm), hfind⟩

/-- The retained keys are pairwise distinct and disjoint from `seen`. -/
theorem dedupeByKey_nodup : ∀ (l : List Submission) (seen : List String),
    ((dedupeByKey l seen).map (fun s => problemKey s.problem)).Nodup := by
  intro l
  induction l with
  | nil => intro seen; simp [dedupeByKey]
  | cons x rest ih =>
    intro seen
    simp only [dedupeByKey]
    by_cases h : problemKey x.problem ∈ seen
    · rw [if_pos h]; exact ih seen
    · rw [if_neg h]
      simp only [List.map_cons, List.nodup_cons]
      refine ⟨?_, ih (problemKey x.problem :: seen)⟩
      intro hmem
      obtain ⟨s, hs, hk⟩ := List.mem_map.mp hmem
      obtain ⟨hseen, _⟩ := dedupeByKey_find rest (problemKey x.problem :: seen) s hs
      exact hseen (hk ▸ List.mem_cons_self _ _)

/-- Every input submission has its key represented: either it was already
seen, or some retained submission carries it. -/
theorem dedupeByKey_complete : ∀ (l : List Submission) (seen : List String),
    ∀ s ∈ l, problemKey s.problem ∈ seen ∨
      ∃ t ∈ dedupeByKey l seen, problemKey t.problem = problemKey s.problem := by
  intro l
  induction l with
  | nil => intro seen s hs; simp at hs
  | cons x rest ih =>
    intro seen s hs
    simp only [dedupeByKey]
    rcases List.mem_cons.mp hs with hx | hx
    · subst hx
      by_cases h : problemKey s.problem ∈ seen
      · exact Or.inl h
      · rw [if_neg h]
        exact Or.inr ⟨s, List.mem_cons_self _ _, rfl⟩
    · by_cases h : problemKey x.problem ∈ seen
      · rw [if_pos h]
        exact ih seen s hx
      · rw [if_neg h]
        rcases ih (problemKey x.problem :: seen) s hx with hseen | ⟨t, ht, hk⟩
        · rcases List.mem_cons.mp hseen with hk | hk
          · exact Or.inr ⟨x, List.mem_cons_self _ _, hk.symm⟩
          · exact Or.inl hk
        · exact Or.inr ⟨t, List.mem_cons_of_mem _ ht, hk⟩

/-- C1: the normalizer returns exactly the accepted submissions (verdict
"OK"), at most one per problem key; two problems share a key exactly when
they agree on contestId and index; the retained submission for each key is
the first OK occurrence of that key in input order; the output order is the
order of first occurrence (the output is an order-preserving sublist of the
OK submissions, each element being the first of its key); the empty input
yields the empty output. -/
theorem claim_C1_normalizer (subs : List Submission) :
    processSubmissions ([] : List Submission) = [] ∧
    (∀ s ∈ processSubmissions subs, s.verdict = "OK") ∧
    ((processSubmissions subs).map (fun s => problemKey s.problem)).Nodup ∧
    (∀ p q : Problem, problemKey p = problemKey q ↔
      p.contestId = q.contestId ∧ p.index = q.index) ∧
    (∀ s ∈ processSubmissions subs,
      (subs.filter (fun t => t.verdict == "OK")).find?
        (fun t => problemKey t.problem == problemKey s.problem) = some s) ∧
    (processSubmissions subs).Sublist (subs.filter (fun t => t.verdict == "OK")) ∧
    (∀ s ∈ subs, s.verdict = "OK" →
      ∃ t ∈ processSubmissions subs, problemKey t.problem = problemKey s.problem) := by
  refine ⟨rfl, ?_, dedupeByKey_nodup _ _, problemKey_eq_iff, ?_, dedupeByKey_sublist _ _, ?_⟩
  · intro s hs
    have hmem : s ∈ subs.filter (fun t => t.verdict == "OK") :=
      (dedupeByKey_sublist _ _).subset hs
    have hv := (List.mem_filter.mp hmem).2
    simpa using hv
  · intro s hs
    exact (dedupeByKey_find _ _ s hs).2
  · intro s hs hv
    have hmem : s ∈ subs.filter (fun t => t.verdict == "OK") :=
      List.mem_filter.mpr ⟨hs, by simp [hv]⟩
    rcases dedupeByKey_complete _ [] s hmem with hseen | hex
    · simp at hseen
    · exact hex

/-- C1 witness: on the demo input, the hypotheses of the conjuncts of
`claim_C1_normalizer` hold and give the stated conclusions. -/
theorem claim_C1_witness :
    subOkA1.verdict = "OK" ∧
    ((demoSubs.filter (fun t => t.verdict == "OK")).find?
      (fun t => problemKey t.problem == problemKey subOkA1.problem) = some subOkA1) ∧
    (∃ t ∈ processSubmissions demoSubs, problemKey t.problem = problemKey subOkA2.problem) :=
  ⟨(claim_C1_normalizer demoSubs).2.1 subOkA1 (by decide),
   (claim_C1_normalizer demoSubs).2.2.2.2.1 subOkA1 (by decide),
   (claim_C1_normalizer demoSubs).2.2.2.2.2.2 subOkA2 (by decide) (by decide)⟩

/-- C9: the shared-problem count is symmetric; computed on one normalized
submission list against itself it equals the length of that list; the
shared-contest count is symmetric.  Both are pure functions of their
arguments, so no input is modified. -/
theorem claim_C9_correlator (a b : List Submission) (h1 h2 : List RatingChange) :
    sharedProblems (processSubmissions a) (processSubmissions b)
      = sharedProblems (processSubmissions b) (processSubmissions a) ∧
    sharedProblems (processSubmissions a) (processSubmissions a)
      = (processSubmissions a).length ∧
    sharedContests h1 h2 = sharedContests h2 h1 := by
  refine ⟨?_, ?_, ?_⟩
  · unfold sharedProblems
    rw [Finset.inter_comm]
  · unfold sharedProblems
    rw [Finset.inter_self]
    have hnodup : ((processSubmissions a).map (fun s => problemKey s.problem)).Nodup :=
      dedupeByKey_nodup _ _
    rw [List.toFinset_card_of_nodup hnodup, List.length_map]
  · unfold sharedContests
    rw [Finset.inter_comm]

/-- Pointwise effect of the tag loop of one submission: each tag counter
grows by the number of occurrences of that tag in the tag list. -/
theorem foldl_bump_apply : ∀ (ts : List String) (f : String → Nat) (t : String),
    (ts.foldl bump f) t = f t + ts.count t := by
  intro ts
  induction ts with
  | nil => intro f t; simp
  | cons a as ih =>
    intro f t
    rw [List.foldl_cons, ih]
    unfold bump
    rcases eq_or_ne t a with h | h
    · subst h
      simp [List.count_cons]
      omega
    · simp [h, List.count_cons]

/-- Field projection of one aggregation step: levels. -/
theorem addSub_levels (st : ProblemStats) (x : Submission) :
    (addSub st x).levels = bump st.levels x.problem.index := rfl

/-- Field projection of one aggregation step: tags. -/
theorem addSub_tags (st : ProblemStats) (x : Submission) :
    (addSub st x).tags = x.problem.tags.foldl bump st.tags := rfl

/-- Field projection of one aggregation step: the rating bucket counter of
`b` grows by one exactly when the submission is counted at bucket `b`. -/
theorem addSub_ratings (st : ProblemStats) (x : Submission) (b : Nat) :
    (addSub st x).ratings b = st.ratings b + (if ratedInBucket x b then 1 else 0) := by
  unfold addSub ratedInBucket
  cases hx : x.problem.rating with
  | none => simp
  | some r =>
    by_cases hr : r = 0
    · subst hr; simp
    · simp only [hr, ne_eq, not_false_eq_true, if_true, bne_iff_ne]
      unfold bumpNat
      rcases eq_or_ne b (r / 100 * 100) with hb | hb
      · subst hb; simp [hr]
      · simp [hb, Ne.symm hb, hr]

/-- Pointwise characterization of the level histogram. -/
theorem foldl_addSub_levels : ∀ (subs : List Submission) (st : ProblemStats) (l : String),
    (subs.foldl addSub st).levels l
      = st.levels l + subs.countP (fun s => s.problem.index == l) := by
  intro subs
  induction subs with
  | nil => intro st l; simp
  | cons x rest ih =>
    intro st l
    rw [List.foldl_cons, ih, addSub_levels, List.countP_cons]
    unfold bump
    rcases eq_or_ne l x.problem.index with h | h
    · simp [h]
      omega
    · simp [h, Ne.symm h]

/-- Pointwise characterization of the rating histogram. -/
theorem foldl_addSub_ratings : ∀ (subs : List Submission) (st : ProblemStats) (b : Nat),
    (subs.foldl addSub st).ratings b
      = st.ratings b + subs.countP (fun s => ratedInBucket s b) := by
  intro subs
  induction subs with
  | nil => intro st b; simp
  | cons x rest ih =>
    intro st b
    rw [List.foldl_cons, ih, addSub_ratings, List.countP_cons]
    by_cases h : ratedInBucket x b
    · simp [h]
      omega
    · simp [h]

/-- Pointwise characterization of the tag histogram. -/
theorem foldl_addSub_tags : ∀ (subs : List Submission) (st : ProblemStats) (t : String),
    (subs.foldl addSub st).tags t
      = st.tags t + (subs.map (fun s => s.problem.tags.count t)).sum := by
  intro subs
  induction subs with
  | nil => intro st t; simp
  | cons x rest ih =>
    intro st t
    rw [List.foldl_cons, ih, addSub_tags, foldl_bump_apply]
    simp
    omega

/-- Counting a value among the images of a map equals counting the sources
mapped onto it. -/
theorem count_map_eq_countP {α β : Type} [DecidableEq β] (f : α → β) (l : List α) (b : β) :
    (l.map f).count b = l.countP (fun a => f a == b) := by
  rw [List.count, List.countP_map]
  rfl

/-- Summing the multiplicities of a list over its set of values gives the
length of the list. -/
theorem sum_toFinset_count {α : Type} [DecidableEq α] (l : List α) :
    ∑ a ∈ l.toFinset, l.count a = l.length := by
  have h := Multiset.toFinset_sum_count_eq (↑l : Multiset α)
  simp only [List.toFinset_coe, Multiset.coe_count, Multiset.coe_card] at h
  exact h

/-- C8: the histograms conserve counts.  The level histogram sums (over the
levels occurring in the input) to the number of submissions and is 0 on all
other levels; the tag histogram sums to the total number of tag occurrences
and is 0 on absent tags; a single submission with pairwise distinct tags
sets each of its tag counters to exactly 1. -/
theorem claim_C8_conservation (subs : List Submission) :
    (∑ l ∈ (subs.map (fun s => s.problem.index)).toFinset,
        (calculateProblemStats subs).levels l) = subs.length ∧
    (∀ l, l ∉ subs.map (fun s => s.problem.index) →
      (calculateProblemStats subs).levels l = 0) ∧
    (∑ t ∈ (subs.flatMap (fun s => s.problem.tags)).toFinset,
        (calculateProblemStats subs).tags t)
      = (subs.map (fun s => s.problem.tags.length)).sum ∧
    (∀ t, t ∉ subs.flatMap (fun s => s.problem.tags) →
      (calculateProblemStats subs).tags t = 0) ∧
    (∀ s : Submission, s.problem.tags.Nodup →
      ∀ t ∈ s.problem.tags, (calculateProblemStats [s]).tags t = 1) := by
  have hlev : ∀ l, (calculateProblemStats subs).levels l
      = (subs.map (fun s => s.problem.index)).count l := by
    intro l
    rw [count_map_eq_countP]
    have h := foldl_addSub_levels subs emptyStats l
    simpa [calculateProblemStats, emptyStats] using h
  have htag : ∀ t, (calculateProblemStats subs).tags t
      = (subs.flatMap (fun s => s.problem.tags)).count t := by
    intro t
    rw [List.count_flatMap]
    have h := foldl_addSub_tags subs emptyStats t
    simp only [calculateProblemStats]
    rw [h]
    simp [emptyStats, Function.comp_def]
  refine ⟨?_, ?_, ?_, ?_, ?_⟩
  · calc ∑ l ∈ (subs.map (fun s => s.problem.index)).toFinset,
        (calculateProblemStats subs).levels l
        = ∑ l ∈ (subs.map (fun s => s.problem.index)).toFinset,
            (subs.map (fun s => s.problem.index)).count l :=
          Finset.sum_congr rfl (fun l _ => hlev l)
      _ = (subs.map (fun s => s.problem.index)).length := sum_toFinset_count _
      _ = subs.length := List.length_map _ _
  · intro l hl
    rw [hlev l]
    exact List.count_eq_zero_of_not_mem hl
  · calc ∑ t ∈ (subs.flatMap (fun s => s.problem.tags)).toFinset,
        (calculateProblemStats subs).tags t
        = ∑ t ∈ (subs.flatMap (fun s => s.problem.tags)).toFinset,
            (subs.flatMap (fun s => s.problem.tags)).count t :=
          Finset.sum_congr rfl (fun t _ => htag t)
      _ = (subs.flatMap (fun s => s.problem.tags)).length := sum_toFinset_count _
      _ = (subs.map (fun s => s.problem.tags.length)).sum := by
          rw [List.length_flatMap]
          simp [Function.comp_def]
  · intro t ht
    rw [htag t]
    exact List.count_eq_zero_of_not_mem ht
  · intro s hnodup t hmem
    have h := foldl_addSub_tags [s] emptyStats t
    simp only [calculateProblemStats]
    rw [h]
    simp [emptyStats, List.count_eq_one_of_mem hnodup hmem]

/-- C8 witness: on the demo fixtures, a submission with two distinct tags
sets both tag counters to 1, and a level absent from the input counts 0. -/
theorem claim_C8_witness :
    (calculateProblemStats [subOkA2]).tags "dp" = 1 ∧
    (calculateProblemStats demoSubs).levels "Z" = 0 :=
  ⟨(claim_C8_conservation [subOkA2]).2.2.2.2 subOkA2 (by decide) "dp" (by decide),
   (claim_C8_conservation demoSubs).2.1 "Z" (by decide)⟩

/-- C4 counterexample: `subZero` carries the (present) rating 0, whose
bucket under the claimed rule is `0 / 100 * 100 = 0`, so the claim predicts
count 1 at bucket 0 for the singleton input; the code counts 0 because the
JS truthiness test drops the rating value 0. -/
theorem claim_C4_counterexample :
    subZero.problem.rating = some 0 ∧
    [subZero].countP (fun s => specRatedInBucket s 0) = 1 ∧
    (calculateProblemStats [subZero]).ratings 0 = 0 := by
  refine ⟨rfl, by decide, by decide⟩

/-- C4 (amended): the rating histogram counts at bucket
`rating / 100 * 100` exactly the submissions carrying a truthy (present and
nonzero) rating; submissions without a rating are excluded entirely, and a
submission carrying a nonzero rating contributes to exactly one bucket. -/
theorem claim_C4_ratings (subs : List Submission) (b : Nat) :
    (calculateProblemStats subs).ratings b
      = subs.countP (fun s => ratedInBucket s b) ∧
    (∀ s : Submission, s.problem.rating = none → ∀ b2 : Nat, ratedInBucket s b2 = false) ∧
    (∀ (s : Submission) (r : Nat), s.problem.rating = some r → r ≠ 0 →
      ∃! b2 : Nat, ratedInBucket s b2 = true) := by
  refine ⟨?_, ?_, ?_⟩
  · have h := foldl_addSub_ratings subs emptyStats b
    simpa [calculateProblemStats, emptyStats] using h
  · intro s hnone b2
    simp [ratedInBucket, hnone]
  · intro s r hr hr0
    refine ⟨r / 100 * 100, by simp [ratedInBucket, hr, hr0], ?_⟩
    intro b2 hb2
    simp [ratedInBucket, hr, hr0] at hb2
    exact hb2.symm

/-- C4 witness: on the demo fixtures, the bucket equation holds at 1200 for
the 1250-rated submission, an unrated submission matches no bucket, and the
rated submission has exactly one bucket. -/
theorem claim_C4_witness :
    (calculateProblemStats [subOkA2]).ratings 1200
      = [subOkA2].countP (fun s => ratedInBucket s 1200) ∧
    ratedInBucket subWaB1 5 = false ∧
    (∃! b2 : Nat, ratedInBucket subOkA2 b2 = true) :=
  ⟨(claim_C4_ratings [subOkA2] 1200).1,
   (claim_C4_ratings [subOkA2] 1200).2.1 subWaB1 (by decide) 5,
   (claim_C4_ratings [subOkA2] 1200).2.2 subOkA2 1250 (by decide) (by decide)⟩

/-- The running minimum over the rank fields is reached by the seed or by a
list element, is at most the seed, and is at most every rank in the list. -/
theorem foldl_min_spec : ∀ (rest : List RatingChange) (a : Int),
    (rest.foldl (fun m x => min m x.rank) a = a ∨
      ∃ x ∈ rest, rest.foldl (fun m x => min m x.rank) a = x.rank) ∧
    rest.foldl (fun m x => min m x.rank) a ≤ a ∧
    ∀ x ∈ rest, rest.foldl (fun m x => min m x.rank) a ≤ x.rank := by
  intro rest
  induction rest with
  | nil => intro a; simp
  | cons y t ih =>
    intro a
    simp only [List.foldl_cons]
    obtain ⟨hmem, hle, hall⟩ := ih (min a y.rank)
    refine ⟨?_, le_trans hle (min_le_left _ _), ?_⟩
    · rcases hmem with h | ⟨x, hx, hxe⟩
      · rcases le_total a y.rank with hc | hc
        · left; rw [h, min_eq_left hc]
        · right
          exact ⟨y, List.mem_cons_self _ _, by rw [h, min_eq_right hc]⟩
      · right
        exact ⟨x, List.mem_cons_of_mem _ hx, hxe⟩
    · intro x hx
      rcases List.mem_cons.mp hx with h | h
      · rw [h]
        exact le_trans hle (min_le_right _ _)
      · exact hall x h

/-- The running sum over the newRating fields is the seed plus the sum. -/
theorem foldl_sum_shift : ∀ (l : List RatingChange) (a : Int),
    l.foldl (fun s x => s + x.newRating) a = a + (l.map (fun x => x.newRating)).sum := by
  intro l
  induction l with
  | nil => intro a; simp
  | cons y t ih =>
    intro a
    rw [List.foldl_cons, ih]
    simp
    ring

/-- Bounds pinning `(2 * t + n).ediv (2 * n)` as the rounding of `t / n`
with ties toward positive infinity. -/
theorem round_div_bounds (t n : Int) (hn : 0 < n) :
    2 * (Int.ediv (2 * t + n) (2 * n)) * n ≤ 2 * t + n ∧
    2 * t + n < 2 * (Int.ediv (2 * t + n) (2 * n) + 1) * n := by
  have hne : (2 * n) ≠ 0 := by omega
  have hdm := Int.ediv_add_emod (2 * t + n) (2 * n)
  have hr0 : 0 ≤ (2 * t + n) % (2 * n) := Int.emod_nonneg _ hne
  have hrlt : (2 * t + n) % (2 * n) < 2 * n := Int.emod_lt_of_pos _ (by omega)
  have hq : Int.ediv (2 * t + n) (2 * n) = (2 * t + n) / (2 * n) := rfl
  rw [hq]
  constructor
  · nlinarith [hdm, hr0]
  · nlinarith [hdm, hrlt]

/-- C5: for a RatingChange sequence the contest statistics are the length,
the minimum rank, and the rounded mean of the new ratings (the returned
value k satisfies the two-sided rounding bounds around the mean); on the
empty sequence attended is 0 and both other fields are the dash sentinel,
with no crash and no undefined number. -/
theorem claim_C5_contestStats :
    calculateContestStats [] = ⟨0, .dash, .dash⟩ ∧
    ∀ (c : RatingChange) (rest : List RatingChange),
      (calculateContestStats (c :: rest)).attended = (c :: rest).length ∧
      (∃ m : Int, (calculateContestStats (c :: rest)).bestRank = .num m ∧
        m ∈ (c :: rest).map (fun x => x.rank) ∧
        ∀ r ∈ (c :: rest).map (fun x => x.rank), m ≤ r) ∧
      (∃ k : Int, (calculateContestStats (c :: rest)).avgRating = .num k ∧
        2 * k * ((c :: rest).length : Int)
          ≤ 2 * ((c :: rest).map (fun x => x.newRating)).sum + ((c :: rest).length : Int) ∧
        2 * ((c :: rest).map (fun x => x.newRating)).sum + ((c :: rest).length : Int)
          < 2 * (k + 1) * ((c :: rest).length : Int)) := by
  refine ⟨rfl, ?_⟩
  intro c rest
  have hunfold : calculateContestStats (c :: rest) =
      { attended := (c :: rest).length
        bestRank := .num (rest.foldl (fun m x => min m x.rank) c.rank)
        avgRating := .num (Int.ediv
          (2 * ((c :: rest).foldl (fun s x => s + x.newRating) 0) + ((c :: rest).length : Int))
          (2 * ((c :: rest).length : Int))) } := rfl
  rw [hunfold]
  refine ⟨rfl, ?_, ?_⟩
  · refine ⟨rest.foldl (fun m x => min m x.rank) c.rank, rfl, ?_, ?_⟩
    · obtain ⟨hmem, _, _⟩ := foldl_min_spec rest c.rank
      rcases hmem with h | ⟨x, hx, hxe⟩
      · rw [h]
        exact List.mem_map.mpr ⟨c, List.mem_cons_self _ _, rfl⟩
      · rw [hxe]
        exact List.mem_map.mpr ⟨x, List.mem_cons_of_mem _ hx, rfl⟩
    · intro r hr
      obtain ⟨_, hle, hall⟩ := foldl_min_spec rest c.rank
      obtain ⟨x, hx, hxe⟩ := List.mem_map.mp hr
      rcases List.mem_cons.mp hx with h | h
      · rw [← hxe, h]
        exact hle
      · rw [← hxe]
        exact hall x h
  · have htot : (c :: rest).foldl (fun s x => s + x.newRating) 0
        = ((c :: rest).map (fun x => x.newRating)).sum := by
      rw [foldl_sum_shift]
      ring
    have hlen : (0 : Int) < ((c :: rest).length : Int) := by
      simp
    refine ⟨Int.ediv (2 * ((c :: rest).map (fun x => x.newRating)).sum
        + ((c :: rest).length : Int)) (2 * ((c :: rest).length : Int)), ?_, ?_, ?_⟩
    · simp only [htot]
    · exact (round_div_bounds _ _ hlen).1
    · exact (round_div_bounds _ _ hlen).2

/-- C5 witness: on the demo history, the contest statistics agree with the
characterization given by `claim_C5_contestStats`. -/
theorem claim_C5_witness :
    (calculateContestStats (demoChange :: [demoChange2, demoChange3])).attended
      = (demoChange :: [demoChange2, demoChange3]).length ∧
    (∃ m : Int,
      (calculateContestStats (demoChange :: [demoChange2, demoChange3])).bestRank = .num m ∧
      m ∈ (demoChange :: [demoChange2, demoChange3]).map (fun x => x.rank) ∧
      ∀ r ∈ (demoChange :: [demoChange2, demoChange3]).map (fun x => x.rank), m ≤ r) :=
  ⟨(claim_C5_contestStats.2 demoChange [demoChange2, demoChange3]).1,
   (claim_C5_contestStats.2 demoChange [demoChange2, demoChange3]).2.1⟩

/-- Unfolds the Div. 1 branch of the switch. -/
theorem contestTypeMatch_div1 : contestTypeMatch "Div. 1" = fun c =>
    strIncludes (jsToLower c.contestName) "div. 1" &&
      !(strIncludes (jsToLower c.contestName) "div. 2") := rfl

/-- Unfolds the Div. 2 branch of the switch. -/
theorem contestTypeMatch_div2 : contestTypeMatch "Div. 2" = fun c =>
    strIncludes (jsToLower c.contestName) "div. 2" := rfl

/-- Unfolds the Div. 3 branch of the switch. -/
theorem contestTypeMatch_div3 : contestTypeMatch "Div. 3" = fun c =>
    strIncludes (jsToLower c.contestName) "div. 3" := rfl

/-- Unfolds the Educational branch of the switch. -/
theorem contestTypeMatch_edu : contestTypeMatch "Educational" = fun c =>
    strIncludes (jsToLower c.contestName) "educational" := rfl

/-- For any label other than "All" the category filter is a plain filter. -/
theorem filterContestsByType_filter (h : List RatingChange) (lbl : String)
    (hne : lbl ≠ "All") :
    filterContestsByType h lbl = h.filter (contestTypeMatch lbl) := by
  unfold filterContestsByType
  rcases eq_or_ne h [] with he | he
  · subst he
    simp
  · rw [if_neg]
    intro hc
    rcases hc with hc | hc
    · exact he hc
    · exact hne hc

/-- C6: the category filter retains an entry exactly by the case-insensitive
substring tests of the spec: Div. 1 requires the lowercased name to contain
"div. 1" and not "div. 2" (so no retained entry contains "div. 2"); Div. 2,
Div. 3, Educational test their one substring; "All" and every unrecognized
label keep the whole history. -/
theorem claim_C6_categoryFilter (h : List RatingChange) :
    filterContestsByType h "Div. 1" = h.filter (fun c =>
      strIncludes (jsToLower c.contestName) "div. 1" &&
        !(strIncludes (jsToLower c.contestName) "div. 2")) ∧
    (∀ c ∈ filterContestsByType h "Div. 1",
      strIncludes (jsToLower c.contestName) "div. 2" = false) ∧
    filterContestsByType h "Div. 2"
      = h.filter (fun c => strIncludes (jsToLower c.contestName) "div. 2") ∧
    filterContestsByType h "Div. 3"
      = h.filter (fun c => strIncludes (jsToLower c.contestName) "div. 3") ∧
    filterContestsByType h "Educational"
      = h.filter (fun c => strIncludes (jsToLower c.contestName) "educational") ∧
    filterContestsByType h "All" = h ∧
    (∀ lbl : String, lbl ≠ "Div. 1" → lbl ≠ "Div. 2" → lbl ≠ "Div. 3" →
      lbl ≠ "Educational" → filterContestsByType h lbl = h) := by
  have hd1 : filterContestsByType h "Div. 1" = h.filter (fun c =>
      strIncludes (jsToLower c.contestName) "div. 1" &&
        !(strIncludes (jsToLower c.contestName) "div. 2")) := by
    rw [filterContestsByType_filter h "Div. 1" (by decide), contestTypeMatch_div1]
  refine ⟨hd1, ?_, ?_, ?_, ?_, ?_, ?_⟩
  · intro c hc
    rw [hd1] at hc
    have hcond := (List.mem_filter.mp hc).2
    have hnot := (Bool.and_eq_true_iff.mp hcond).2
    simpa using hnot
  · rw [filterContestsByType_filter h "Div. 2" (by decide), contestTypeMatch_div2]
  · rw [filterContestsByType_filter h "Div. 3" (by decide), contestTypeMatch_div3]
  · rw [filterContestsByType_filter h "Educational" (by decide), contestTypeMatch_edu]
  · unfold filterContestsByType
    rw [if_pos (Or.inr rfl)]
  · intro lbl h1 h2 h3 h4
    rcases eq_or_ne lbl "All" with hAll | hAll
    · subst hAll
      unfold filterContestsByType
      rw [if_pos (Or.inr rfl)]
    · rw [filterContestsByType_filter h lbl hAll]
      have hmatch : contestTypeMatch lbl = fun _ => true := by
        funext c
        simp [contestTypeMatch, h1, h2, h3, h4]
      rw [hmatch, List.filter_true]

/-- C6 witness: on the demo history the hypotheses of the conditional
conjuncts of `claim_C6_categoryFilter` are satisfied concretely. -/
theorem claim_C6_witness :
    strIncludes (jsToLower demoChange3.contestName) "div. 2" = false ∧
    filterContestsByType demoHistory "Foo" = demoHistory :=
  ⟨(claim_C6_categoryFilter demoHistory).2.1 demoChange3 (by decide),
   (claim_C6_categoryFilter demoHistory).2.2.2.2.2.2 "Foo"
     (by decide) (by decide) (by decide) (by decide)⟩

/-- C7: filtering with "All" is the identity for the time filter, the
category filter, and their composition; every result of either filter is an
order-preserving sublist of the input; both filters are pure functions, so
the source sequence is never modified. -/
theorem claim_C7_filterIdentity (now : Int) (h : List RatingChange) :
    filterRatingHistoryByTime now h "All" = h ∧
    filterContestsByType h "All" = h ∧
    filterContestsByType (filterRatingHistoryByTime now h "All") "All" = h ∧
    (∀ tf : String, (filterRatingHistoryByTime now h tf).Sublist h) ∧
    (∀ ct : String, (filterContestsByType h ct).Sublist h) := by
  have hAllT : filterRatingHistoryByTime now h "All" = h := by
    unfold filterRatingHistoryByTime
    rw [if_pos (Or.inr rfl)]
  have hAllC : filterContestsByType h "All" = h := by
    unfold filterContestsByType
    rw [if_pos (Or.inr rfl)]
  refine ⟨hAllT, hAllC, by rw [hAllT, hAllC], ?_, ?_⟩
  · intro tf
    unfold filterRatingHistoryByTime
    split
    · exact List.Sublist.refl h
    · split
      · exact List.filter_sublist h
      · split
        · exact List.filter_sublist h
        · exact List.Sublist.refl h
  · intro ct
    unfold filterContestsByType
    split
    · exact List.Sublist.refl h
    · exact List.filter_sublist h

/-- C2: with the default budget of 3, two failing attempts followed by a
successful third return the payload with no error; three failing attempts
produce exactly the thrown error carrying the last attempt message. -/
theorem claim_C2_retry {α : Type} (oracle : Nat → Except String α) (v : α)
    (e0 e1 e2 : String) :
    (oracle 0 = .error e0 → oracle 1 = .error e1 → oracle 2 = .ok v →
      fetchWithRetry oracle 3 = .success v) ∧
    (oracle 0 = .error e0 → oracle 1 = .error e1 → oracle 2 = .error e2 →
      fetchWithRetry oracle 3 = .thrown e2) := by
  constructor
  · intro h0 h1 h2
    simp [fetchWithRetry, fetchLoop, h0, h1, h2]
  · intro h0 h1 h2
    simp [fetchWithRetry, fetchLoop, h0, h1, h2]

/-- C2 witness: the demo oracles realize both scenarios of
`claim_C2_retry`. -/
theorem claim_C2_witness :
    fetchWithRetry demoOracle 3 = .success 7 ∧
    fetchWithRetry demoOracleFail 3 = .thrown ("down " ++ Nat.repr 2) :=
  ⟨(claim_C2_retry demoOracle 7 ("boom " ++ Nat.repr 0) ("boom " ++ Nat.repr 1)
      "unused").1 rfl rfl rfl,
   (claim_C2_retry demoOracleFail 7 ("down " ++ Nat.repr 0) ("down " ++ Nat.repr 1)
      ("down " ++ Nat.repr 2)).2 rfl rfl rfl⟩

/-- While the loop guard holds, the loop cannot fall through to the
undefined result: it ends in a payload or a thrown error. -/
theorem fetchLoop_ne_undef : ∀ (fuel : Nat) {α : Type}
    (oracle : Nat → Except String α) (retries : Int) (i : Nat),
    (i : Int) + fuel = retries → 0 < fuel →
    fetchLoop oracle retries i fuel ≠ .undef := by
  intro fuel
  induction fuel with
  | zero =>
    intro α oracle retries i hsum hpos
    omega
  | succ f ih =>
    intro α oracle retries i hsum hpos
    simp only [fetchLoop]
    cases ho : oracle i with
    | ok v => simp
    | error e =>
      by_cases hl : (i : Int) = retries - 1
      · simp [hl]
      · simp only [hl, if_false]
        apply ih
        · push_cast
          omega
        · omega

/-- C10: with a non-positive budget the retry client returns the undefined
result for every oracle, so no attempt outcome can influence it and neither
a payload nor an error reaches the caller; with a budget of at least 1 the
result is never undefined - every call ends in a returned payload or a
thrown error. -/
theorem claim_C10_retryBudget {α : Type} (oracle : Nat → Except String α)
    (retries : Int) :
    (retries ≤ 0 → fetchWithRetry oracle retries = .undef) ∧
    (1 ≤ retries → fetchWithRetry oracle retries ≠ .undef) := by
  constructor
  · intro h
    have hz : retries.toNat = 0 := Int.toNat_eq_zero.mpr h
    rw [fetchWithRetry, hz]
    rfl
  · intro h
    rw [fetchWithRetry]
    apply fetchLoop_ne_undef
    · rw [Int.toNat_of_nonneg (by omega)]
      omega
    · omega

/-- C10 witness: with budget 0 the always-failing oracle yields the
undefined result, with budget 1 it does not. -/
theorem claim_C10_witness :
    fetchWithRetry demoOracleFail 0 = .undef ∧
    fetchWithRetry demoOracleFail 1 ≠ .undef :=
  ⟨(claim_C10_retryBudget demoOracleFail 0).1 (by decide),
   (claim_C10_retryBudget demoOracleFail 1).2 (by decide)⟩

/-- C3: a failed rating-history lookup is absorbed: the analysis equals the
one computed from an empty history and still succeeds; a failed profile or
submission lookup aborts the whole query with an error.  The same holds for
the two-user comparison, where both rating slots degrade independently. -/
theorem claim_C3_ratingDegrade (u u2 : UserProfile) (s s2 : List Submission)
    (e e1 e2 : String) (r : Except String (List RatingChange)) :
    analyzeUser (.ok u) (.error e) (.ok s) = analyzeUser (.ok u) (.ok []) (.ok s) ∧
    (∃ view, analyzeUser (.ok u) (.error e) (.ok s) = .ok view ∧
      view.ratingHistory = []) ∧
    analyzeUser (.error e) r (.ok s) = .error e ∧
    analyzeUser (.ok u) r (.error e) = .error e ∧
    compareUsers (.ok u) (.error e1) (.ok s) (.ok u2) (.error e2) (.ok s2)
      = compareUsers (.ok u) (.ok []) (.ok s) (.ok u2) (.ok []) (.ok s2) ∧
    (∃ view, compareUsers (.ok u) (.error e1) (.ok s) (.ok u2) (.error e2) (.ok s2)
      = .ok view ∧ view.user1History = [] ∧ view.user2History = []) ∧
    compareUsers (.error e) r (.ok s) (.ok u2) r (.ok s2) = .error e ∧
    compareUsers (.ok u) r (.error e) (.ok u2) r (.ok s2) = .error e ∧
    compareUsers (.ok u) r (.ok s) (.error e) r (.ok s2) = .error e ∧
    compareUsers (.ok u) r (.ok s) (.ok u2) r (.error e) = .error e :=
  ⟨rfl, ⟨_, rfl, rfl⟩, rfl, rfl, rfl, ⟨_, rfl, rfl, rfl⟩, rfl, rfl, rfl, rfl⟩
